import Mathlib

/-!
Verification of the Brainpile core (`src/core/src`): a shallow embedding of
the task queue, enrichment pipeline, retrieval fusion, album coordination,
deletion cascade and link synthesis, with theorems checking the specified
behaviour against the embedded code.

Conventions: Rust `i64`/`i32` values are modelled as `Int` (no arithmetic in
the embedded fragments overflows), `usize` casts are taken modulo `2 ^ 64`,
byte strings are `List Nat`, SQL rows are association lists, and the remote
services / Telegram transport are oracle inputs.
-/

namespace Brainpile

/-! ### MD5 (RFC 1321)

The worker hashes content with the `md5` crate and renders digests with
`format!("{:x}", _)`; we implement the digest over byte lists. -/

def w32 : Nat := 4294967296

def rotl32 (x n : Nat) : Nat :=
  ((x <<< n) ||| (x >>> (32 - n))) % w32

def not32 (x : Nat) : Nat := 4294967295 - x

def md5S : List Nat :=
  [7, 12, 17, 22, 7, 12, 17, 22, 7, 12, 17, 22, 7, 12, 17, 22,
   5,  9, 14, 20, 5,  9, 14, 20, 5,  9, 14, 20, 5,  9, 14, 20,
   4, 11, 16, 23, 4, 11, 16, 23, 4, 11, 16, 23, 4, 11, 16, 23,
   6, 10, 15, 21, 6, 10, 15, 21, 6, 10, 15, 21, 6, 10, 15, 21]

def md5K : List Nat :=
  [0xd76aa478, 0xe8c7b756, 0x242070db, 0xc1bdceee,
   0xf57c0faf, 0x4787c62a, 0xa8304613, 0xfd469501,
   0x698098d8, 0x8b44f7af, 0xffff5bb1, 0x895cd7be,
   0x6b901122, 0xfd987193, 0xa679438e, 0x49b40821,
   0xf61e2562, 0xc040b340, 0x265e5a51, 0xe9b6c7aa,
   0xd62f105d, 0x02441453, 0xd8a1e681, 0xe7d3fbc8,
   0x21e1cde6, 0xc33707d6, 0xf4d50d87, 0x455a14ed,
   0xa9e3e905, 0xfcefa3f8, 0x676f02d9, 0x8d2a4c8a,
   0xfffa3942, 0x8771f681, 0x6d9d6122, 0xfde5380c,
   0xa4beea44, 0x4bdecfa9, 0xf6bb4b60, 0xbebfbc70,
   0x289b7ec6, 0xeaa127fa, 0xd4ef3085, 0x04881d05,
   0xd9d4d039, 0xe6db99e5, 0x1fa27cf8, 0xc4ac5665,
   0xf4292244, 0x432aff97, 0xab9423a7, 0xfc93a039,
   0x655b59c3, 0x8f0ccc92, 0xffeff47d, 0x85845dd1,
   0x6fa87e4f, 0xfe2ce6e0, 0xa3014314, 0x4e0811a1,
   0xf7537e82, 0xbd3af235, 0x2ad7d2bb, 0xeb86d391]

/-- Padding: append `0x80`, then zeros to reach 56 mod 64, then the 64-bit
little-endian bit length of the original message. -/
def md5Pad (msg : List Nat) : List Nat :=
  let len := msg.length
  let bitLen := (len * 8) % (2 ^ 64)
  let padZeros := (55 + 64 - (len % 64)) % 64
  msg ++ [0x80] ++ List.replicate padZeros 0 ++
    (List.range 8).map (fun i => (bitLen >>> (8 * i)) % 256)

/-- Little-endian 32-bit word `g` of a 64-byte block. -/
def blockWord (block : List Nat) (g : Nat) : Nat :=
  (block.getD (4 * g) 0) + (block.getD (4 * g + 1) 0) * 256 +
    (block.getD (4 * g + 2) 0) * 65536 + (block.getD (4 * g + 3) 0) * 16777216

def md5F (i b c d : Nat) : Nat :=
  if i < 16 then (b &&& c) ||| (not32 b &&& d)
  else if i < 32 then (d &&& b) ||| (not32 d &&& c)
  else if i < 48 then b ^^^ c ^^^ d
  else c ^^^ (b ||| not32 d)

def md5G (i : Nat) : Nat :=
  if i < 16 then i
  else if i < 32 then (5 * i + 1) % 16
  else if i < 48 then (3 * i + 5) % 16
  else (7 * i) % 16

def md5Step (block : List Nat) (st : Nat × Nat × Nat × Nat) (i : Nat) :
    Nat × Nat × Nat × Nat :=
  let (a, b, c, d) := st
  let f := (md5F i b c d + a + md5K.getD i 0 + blockWord block (md5G i)) % w32
  (d, (b + rotl32 f (md5S.getD i 0)) % w32, b, c)

def md5Block (st : Nat × Nat × Nat × Nat) (block : List Nat) :
    Nat × Nat × Nat × Nat :=
  let (a0, b0, c0, d0) := st
  let (a, b, c, d) := (List.range 64).foldl (md5Step block) (a0, b0, c0, d0)
  ((a0 + a) % w32, (b0 + b) % w32, (c0 + c) % w32, (d0 + d) % w32)

def chunks64 (l : List Nat) : List (List Nat) :=
  (List.range (l.length / 64)).map (fun i => (l.drop (64 * i)).take 64)

def hexDigit (n : Nat) : Char :=
  "0123456789abcdef".toList.getD n '0'

def byteHex (b : Nat) : List Char :=
  [hexDigit (b / 16 % 16), hexDigit (b % 16)]

/-- Four little-endian bytes of a 32-bit word, as lowercase hex. -/
def wordHex (w : Nat) : List Char :=
  byteHex (w % 256) ++ byteHex (w / 256 % 256) ++
    byteHex (w / 65536 % 256) ++ byteHex (w / 16777216 % 256)

/-- Lowercase-hex MD5 digest of a byte list, as produced by
`format!("{:x}", md5::compute(bytes))`. -/
def md5Hex (msg : List Nat) : String :=
  let st := (chunks64 (md5Pad msg)).foldl md5Block
    (0x67452301, 0xefcdab89, 0x98badcfe, 0x10325476)
  let (a, b, c, d) := st
  String.mk (wordHex a ++ wordHex b ++ wordHex c ++ wordHex d)

/-- UTF-8 bytes of a character, as in Rust `str::as_bytes`. -/
def utf8CharBytes (c : Char) : List Nat :=
  let n := c.toNat
  if n < 0x80 then [n]
  else if n < 0x800 then [0xC0 + n / 64, 0x80 + n % 64]
  else if n < 0x10000 then [0xE0 + n / 4096, 0x80 + n / 64 % 64, 0x80 + n % 64]
  else [0xF0 + n / 262144, 0x80 + n / 4096 % 64, 0x80 + n / 64 % 64, 0x80 + n % 64]

/-- UTF-8 byte sequence of a string, as in Rust `String::as_bytes`. -/
def utf8Bytes (s : String) : List Nat :=
  (s.data.map utf8CharBytes).flatten

/-- Sanity anchor for the digest implementation (RFC 1321 test vector). -/
theorem md5Hex_empty : md5Hex [] = "d41d8cd98f00b204e9800998ecf8427e" := by decide

/-- Sanity anchor matching the literal digest quoted in the specification. -/
theorem md5Hex_hello_world :
    md5Hex (utf8Bytes "hello world") = "5eb63bbbe01eeed093cb22bb8f5acdc3" := by decide

/-! ### Content hash (`worker.rs`, `perform_task`, lines 591-603) -/

/-- The content hash computed at the end of `perform_task`:
`md5(md5hex(file) ++ md5hex(text))` when both a file and text are present,
otherwise the digest of whichever of the two exists. -/
def contentHash (fileBytes : List Nat) (contentText : String) : String :=
  if fileBytes ≠ [] ∧ contentText ≠ "" then
    let fileHash := md5Hex fileBytes
    let textHash := md5Hex (utf8Bytes contentText)
    md5Hex (utf8Bytes (fileHash ++ textHash))
  else if fileBytes ≠ [] then
    md5Hex fileBytes
  else
    md5Hex (utf8Bytes contentText)

/-- C1: the stored content hash is the lowercase-hex md5 of the concatenated
lowercase-hex digests of file bytes and text when both are non-empty, the md5
of the file bytes when only the file exists, and the md5 of the text when only
text exists; in particular for text-only items it equals `md5(text)`. -/
theorem content_hash_composition (fileBytes : List Nat) (contentText : String) :
    (fileBytes ≠ [] → contentText ≠ "" →
      contentHash fileBytes contentText =
        md5Hex (utf8Bytes (md5Hex fileBytes ++ md5Hex (utf8Bytes contentText)))) ∧
    (fileBytes ≠ [] → contentText = "" →
      contentHash fileBytes contentText = md5Hex fileBytes) ∧
    (fileBytes = [] →
      contentHash fileBytes contentText = md5Hex (utf8Bytes contentText)) := by
  refine ⟨fun h1 h2 => ?_, fun h1 h2 => ?_, fun h1 => ?_⟩
  · simp [contentHash, h1, h2]
  · simp [contentHash, h1, h2]
  · simp [contentHash, h1]

/-- Witness for C1 at the specification's text-only scenario. -/
theorem content_hash_composition_witness :
    contentHash [] "hello world" = "5eb63bbbe01eeed093cb22bb8f5acdc3" := by
  have h := (content_hash_composition [] "hello world").2.2 rfl
  rw [h]
  decide

/-! ### Task queue (`bot.rs`, `process_message`; `worker.rs`, `process_next_task`)

Rows of the `tasks` table are modelled as an association list keyed by the
serial task id.  `enqueue` embeds the `INSERT ... ON CONFLICT DO NOTHING
RETURNING id` of `process_message`; the conflict target is the unique index
on `(bot_chat_id, bot_message_id)`, which lives in the migrations and is
described by the spec's uniqueness invariant.  The lease and the two terminal
updates of `process_next_task` appear as a step relation: the precondition
`status = processing` of the terminal steps records that the worker issues
them only for the row it leased in the same iteration, and no other write
touches a `processing` row. -/

inductive Status
  | pending
  | processing
  | completed
  | failed
deriving DecidableEq

structure TaskRow where
  botChatId : Int
  botMessageId : Int
  status : Status
  itemId : Option Int
  errorMessage : Option String
  errorReplyId : Option Int
deriving DecidableEq

structure TasksDB where
  rows : List (Nat × TaskRow)
  nextId : Nat
deriving DecidableEq

def lookupBy {κ α : Type} [DecidableEq κ] : List (κ × α) → κ → Option α
  | [], _ => none
  | r :: rest, k => if r.1 = k then some r.2 else lookupBy rest k

def findRow (db : TasksDB) (id : Nat) : Option TaskRow :=
  lookupBy db.rows id

def newTaskRow (c m : Int) : TaskRow :=
  { botChatId := c, botMessageId := m, status := .pending,
    itemId := none, errorMessage := none, errorReplyId := none }

def hasCoords (db : TasksDB) (c m : Int) : Bool :=
  db.rows.any (fun r => r.2.botChatId == c && r.2.botMessageId == m)

/-- `INSERT INTO tasks ... VALUES (..., 'pending', ...) ON CONFLICT DO NOTHING
RETURNING id`: the returned value is the fresh id, or `none` when a row with
the same `(bot_chat_id, bot_message_id)` already exists (`Ok(None)` at the
call site, which only logs "Task already exists"). -/
def enqueue (db : TasksDB) (c m : Int) : TasksDB × Option Nat :=
  if hasCoords db c m then
    (db, none)
  else
    ({ rows := db.rows ++ [(db.nextId, newTaskRow c m)], nextId := db.nextId + 1 },
     some db.nextId)

def updateRow (db : TasksDB) (id : Nat) (f : TaskRow → TaskRow) : TasksDB :=
  { db with rows := db.rows.map (fun r => if r.1 = id then (r.1, f r.2) else r) }

/-- `UPDATE tasks SET status = 'processing' WHERE id = $1`, issued for the row
selected by `WHERE status = 'pending' ... FOR UPDATE SKIP LOCKED`. -/
def leaseUpdate (t : TaskRow) : TaskRow :=
  { t with status := .processing }

/-- `UPDATE tasks SET status = 'completed', item_id = $1, error_reply_id = NULL
WHERE id = $2`. -/
def completeUpdate (itemId : Int) (t : TaskRow) : TaskRow :=
  { t with status := .completed, itemId := some itemId, errorReplyId := none }

/-- `UPDATE tasks SET status = 'failed', error_message = $1,
error_reply_id = $2 WHERE id = $3`. -/
def failUpdate (msg : String) (replyId : Option Int) (t : TaskRow) : TaskRow :=
  { t with status := .failed, errorMessage := some msg, errorReplyId := replyId }

inductive Step : TasksDB → TasksDB → Prop
  | enqueue (db : TasksDB) (c m : Int) : Step db (Brainpile.enqueue db c m).1
  | lease (db : TasksDB) (id : Nat) (t : TaskRow) :
      findRow db id = some t → t.status = .pending →
      Step db (updateRow db id leaseUpdate)
  | complete (db : TasksDB) (id : Nat) (t : TaskRow) (itemId : Int) :
      findRow db id = some t → t.status = .processing →
      Step db (updateRow db id (completeUpdate itemId))
  | fail (db : TasksDB) (id : Nat) (t : TaskRow) (msg : String)
      (replyId : Option Int) :
      findRow db id = some t → t.status = .processing →
      Step db (updateRow db id (failUpdate msg replyId))

def initDB : TasksDB := { rows := [], nextId := 1 }

def Reachable (db : TasksDB) : Prop :=
  Relation.ReflTransGen Step initDB db

/-- Row-level invariant claimed for the queue. -/
def RowInv (t : TaskRow) : Prop :=
  (t.itemId ≠ none → t.status = .completed) ∧
  (t.errorMessage ≠ none → t.status = .failed)

def DBInv (db : TasksDB) : Prop :=
  ∀ id t, findRow db id = some t → RowInv t

theorem lookupBy_append_cases {κ α : Type} [DecidableEq κ]
    (l₁ l₂ : List (κ × α)) (k : κ) (v : α)
    (h : lookupBy (l₁ ++ l₂) k = some v) :
    lookupBy l₁ k = some v ∨ (lookupBy l₁ k = none ∧ lookupBy l₂ k = some v) := by
  induction l₁ with
  | nil => simp [lookupBy] at h ⊢; exact h
  | cons r rest ih =>
    by_cases hk : r.1 = k
    · simp [lookupBy, hk] at h ⊢
      exact h
    · simp [lookupBy, hk] at h ⊢
      exact ih h

theorem lookupBy_map_update {κ α : Type} [DecidableEq κ]
    (l : List (κ × α)) (id k : κ) (f : α → α) :
    lookupBy (l.map (fun r => if r.1 = id then (r.1, f r.2) else r)) k =
      if k = id then (lookupBy l k).map f else lookupBy l k := by
  induction l with
  | nil => simp [lookupBy]
  | cons r rest ih =>
    by_cases hrid : r.1 = id
    · by_cases hk : k = id
      · simp [lookupBy, hrid, hk]
      · have hk2 : ¬ id = k := fun hh => hk hh.symm
        simp [lookupBy, hrid, hk, hk2] at ih ⊢
        exact ih
    · by_cases hrk : r.1 = k
      · have hk : ¬ k = id := fun hh => hrid (hrk.trans hh)
        simp [lookupBy, hrid, hrk, hk]
      · simpa [lookupBy, hrid, hrk] using ih

theorem findRow_updateRow (db : TasksDB) (id k : Nat) (f : TaskRow → TaskRow) :
    findRow (updateRow db id f) k =
      if k = id then (findRow db k).map f else findRow db k := by
  simpa [findRow, updateRow] using lookupBy_map_update db.rows id k f

/-- A row visible after an `updateRow` is either unchanged or the image of
the updated row under the update. -/
theorem findRow_updateRow_cases (db : TasksDB) (id0 id : Nat) (t0 t t' : TaskRow)
    (f : TaskRow → TaskRow) (hfind : findRow db id0 = some t0)
    (h : findRow db id = some t)
    (h' : findRow (updateRow db id0 f) id = some t') :
    t' = t ∨ (id = id0 ∧ t = t0 ∧ t' = f t0) := by
  rw [findRow_updateRow] at h'
  by_cases hid : id = id0
  · subst hid
    rw [h] at h'
    rw [hfind] at h
    injection h with h
    subst h
    simp at h'
    right
    exact ⟨rfl, rfl, h'.symm⟩
  · left
    simp [hid] at h'
    rw [h] at h'
    injection h' with hv
    exact hv.symm

/-- A row visible after an `enqueue` is either an unchanged old row or the
fresh pending row. -/
theorem findRow_enqueue_cases (db : TasksDB) (c m : Int) (id : Nat)
    (t' : TaskRow) (h' : findRow (enqueue db c m).1 id = some t') :
    findRow db id = some t' ∨ (findRow db id = none ∧ t' = newTaskRow c m) := by
  unfold enqueue at h'
  by_cases hdup : hasCoords db c m
  · simp [hdup] at h'
    exact Or.inl h'
  · simp [hdup] at h'
    rw [findRow] at h'
    rcases lookupBy_append_cases db.rows [(db.nextId, newTaskRow c m)] id t' h' with
      hc | ⟨hn, hc⟩
    · exact Or.inl hc
    · refine Or.inr ⟨hn, ?_⟩
      by_cases hid : db.nextId = id
      · simp [lookupBy, hid] at hc
        exact hc.symm
      · simp [lookupBy, hid] at hc

/-- The per-row status change of any single step is either no change,
`pending → processing`, or `processing → {completed, failed}`. -/
theorem step_transition (db db' : TasksDB) (hs : Step db db') (id : Nat)
    (t t' : TaskRow) (h : findRow db id = some t)
    (h' : findRow db' id = some t') :
    t'.status = t.status ∨
    (t.status = .pending ∧ t'.status = .processing) ∨
    (t.status = .processing ∧ (t'.status = .completed ∨ t'.status = .failed)) := by
  cases hs with
  | enqueue c m =>
    rcases findRow_enqueue_cases db c m id t' h' with hc | ⟨hn, _⟩
    · left
      rw [h] at hc
      injection hc with hc
      rw [hc]
    · rw [h] at hn
      cases hn
  | lease id0 t0 hfind hst =>
    rcases findRow_updateRow_cases db id0 id t0 t t' leaseUpdate hfind h h' with
      hc | ⟨_, ht, ht'⟩
    · left; rw [hc]
    · right; left
      subst ht
      rw [ht']
      exact ⟨hst, rfl⟩
  | complete id0 t0 itemId hfind hst =>
    rcases findRow_updateRow_cases db id0 id t0 t t' (completeUpdate itemId) hfind h h' with
      hc | ⟨_, ht, ht'⟩
    · left; rw [hc]
    · right; right
      subst ht
      rw [ht']
      exact ⟨hst, Or.inl rfl⟩
  | fail id0 t0 msg replyId hfind hst =>
    rcases findRow_updateRow_cases db id0 id t0 t t' (failUpdate msg replyId) hfind h h' with
      hc | ⟨_, ht, ht'⟩
    · left; rw [hc]
    · right; right
      subst ht
      rw [ht']
      exact ⟨hst, Or.inr rfl⟩

theorem step_preserves_inv (db db' : TasksDB) (hs : Step db db')
    (hinv : DBInv db) : DBInv db' := by
  intro id t' h'
  cases hs with
  | enqueue c m =>
    rcases findRow_enqueue_cases db c m id t' h' with hc | ⟨_, ht'⟩
    · exact hinv id t' hc
    · rw [ht']
      exact ⟨fun hcon => absurd rfl hcon, fun hcon => absurd rfl hcon⟩
  | lease id0 t0 hfind hst =>
    rw [findRow_updateRow] at h'
    by_cases hid : id = id0
    · rw [hid, hfind] at h'
      simp at h'
      obtain ⟨hi, he⟩ := hinv id0 t0 hfind
      rw [← h']
      constructor
      · intro hcon
        have := hi hcon
        rw [this] at hst
        cases hst
      · intro hcon
        have := he hcon
        rw [this] at hst
        cases hst
    · simp [hid] at h'
      exact hinv id t' h'
  | complete id0 t0 itemId hfind hst =>
    rw [findRow_updateRow] at h'
    by_cases hid : id = id0
    · rw [hid, hfind] at h'
      simp at h'
      obtain ⟨hi, he⟩ := hinv id0 t0 hfind
      rw [← h']
      constructor
      · intro _
        rfl
      · intro hcon
        have hx : t0.errorMessage ≠ none := hcon
        have := he hx
        rw [this] at hst
        cases hst
    · simp [hid] at h'
      exact hinv id t' h'
  | fail id0 t0 msg replyId hfind hst =>
    rw [findRow_updateRow] at h'
    by_cases hid : id = id0
    · rw [hid, hfind] at h'
      simp at h'
      obtain ⟨hi, he⟩ := hinv id0 t0 hfind
      rw [← h']
      constructor
      · intro hcon
        have hx : t0.itemId ≠ none := hcon
        have := hi hx
        rw [this] at hst
        cases hst
      · intro _
        rfl
    · simp [hid] at h'
      exact hinv id t' h'

theorem reachable_inv (db : TasksDB) (h : Reachable db) : DBInv db := by
  induction h with
  | refl =>
    intro id t hfind
    simp [findRow, initDB, lookupBy] at hfind
  | tail _ hstep ih =>
    exact step_preserves_inv _ _ hstep ih

/-- C2: every status update follows pending → processing → terminal (per-step
transition legality), and in every reachable state a task with `item_id` set
is `completed` while a task with `error_message` set is `failed`. -/
theorem task_status_machine :
    (∀ db db' : TasksDB, Step db db' → ∀ id t t',
        findRow db id = some t → findRow db' id = some t' →
        t'.status = t.status ∨
        (t.status = .pending ∧ t'.status = .processing) ∨
        (t.status = .processing ∧ (t'.status = .completed ∨ t'.status = .failed))) ∧
    (∀ db, Reachable db → ∀ id t, findRow db id = some t →
        (t.itemId ≠ none → t.status = .completed) ∧
        (t.errorMessage ≠ none → t.status = .failed)) :=
  ⟨fun db db' hs id t t' h h' => step_transition db db' hs id t t' h h',
   fun db h id t hfind => reachable_inv db h id t hfind⟩

/-- Witness for C2: a concrete lease step on an enqueued row, and the
invariant instantiated at a concrete reachable failed task. -/
theorem task_status_machine_witness :
    ((leaseUpdate (newTaskRow 42 7)).status = (newTaskRow 42 7).status ∨
      ((newTaskRow 42 7).status = .pending ∧
        (leaseUpdate (newTaskRow 42 7)).status = .processing) ∨
      ((newTaskRow 42 7).status = .processing ∧
        ((leaseUpdate (newTaskRow 42 7)).status = .completed ∨
          (leaseUpdate (newTaskRow 42 7)).status = .failed))) ∧
    (failUpdate "boom" none (leaseUpdate (newTaskRow 42 7))).status = .failed := by
  refine ⟨?_, ?_⟩
  · exact task_status_machine.1 (enqueue initDB 42 7).1
      (updateRow (enqueue initDB 42 7).1 1 leaseUpdate)
      (Step.lease _ 1 (newTaskRow 42 7) (by decide) rfl)
      1 (newTaskRow 42 7) (leaseUpdate (newTaskRow 42 7)) (by decide) (by decide)
  · have hreach :
        Reachable (updateRow (updateRow (enqueue initDB 42 7).1 1 leaseUpdate) 1
          (failUpdate "boom" none)) := by
      refine Relation.ReflTransGen.tail (Relation.ReflTransGen.tail
        (Relation.ReflTransGen.tail Relation.ReflTransGen.refl
          (Step.enqueue initDB 42 7))
        (Step.lease _ 1 (newTaskRow 42 7) (by decide) rfl)) ?_
      exact Step.fail _ 1 (leaseUpdate (newTaskRow 42 7)) "boom" none (by decide) rfl
    have h := (task_status_machine.2 _ hreach 1
      (failUpdate "boom" none (leaseUpdate (newTaskRow 42 7))) (by decide)).2
    exact h (by simp [failUpdate])

/-! ### Duplicate submissions (C3) -/

def countCoords (db : TasksDB) (c m : Int) : Nat :=
  (db.rows.filter (fun r => r.2.botChatId == c && r.2.botMessageId == m)).length

def dupRowCompleted : TaskRow :=
  { newTaskRow 42 7 with status := .completed, itemId := some 5 }

def dupRowFailed : TaskRow :=
  { newTaskRow 42 7 with status := .failed, errorMessage := some "x" }

def dbWithCompleted : TasksDB := { rows := [(1, dupRowCompleted)], nextId := 2 }

def dbWithFailed : TasksDB := { rows := [(1, dupRowFailed)], nextId := 2 }

/-- C3 counterexample: the duplicate path of `process_message` returns
`Ok(None)` — the same value whatever the pre-existing row's status is — so it
does not return the pre-existing row's status.  Shown at two concrete states
whose pre-existing rows have different statuses. -/
theorem enqueue_duplicate_counterexample :
    (enqueue dbWithCompleted 42 7).2 = none ∧
    (enqueue dbWithFailed 42 7).2 = none ∧
    (findRow dbWithCompleted 1).map TaskRow.status ≠
      (findRow dbWithFailed 1).map TaskRow.status := by
  decide

/-- C3 (amended): submitting the same `(bot_chat_id, bot_message_id)` twice
against a state with no such row leaves exactly one task row with those
coordinates; the first submission is accepted with the fresh id, and the
duplicate performs an insert-or-ignore that mutates nothing and returns no
id (and hence no status). -/
theorem enqueue_at_most_once (db : TasksDB) (c m : Int)
    (h : countCoords db c m = 0) :
    countCoords (enqueue (enqueue db c m).1 c m).1 c m = 1 ∧
    (enqueue db c m).2 = some db.nextId ∧
    (enqueue (enqueue db c m).1 c m).2 = none ∧
    (enqueue (enqueue db c m).1 c m).1 = (enqueue db c m).1 := by
  have hfilter : db.rows.filter
      (fun r => r.2.botChatId == c && r.2.botMessageId == m) = [] := by
    unfold countCoords at h
    exact List.length_eq_zero.mp h
  have hnone : hasCoords db c m = false := by
    unfold hasCoords
    rw [List.any_eq_false]
    intro x hx hpx
    have hmem : x ∈ db.rows.filter
        (fun r => r.2.botChatId == c && r.2.botMessageId == m) :=
      List.mem_filter.mpr ⟨hx, hpx⟩
    rw [hfilter] at hmem
    cases hmem
  have hq1 : enqueue db c m =
      ({ rows := db.rows ++ [(db.nextId, newTaskRow c m)],
         nextId := db.nextId + 1 }, some db.nextId) := by
    unfold enqueue
    rw [hnone]
    simp
  have hmatch : (((db.nextId, newTaskRow c m)).2.botChatId == c &&
      ((db.nextId, newTaskRow c m)).2.botMessageId == m) = true := by
    simp [newTaskRow]
  set db1 := (enqueue db c m).1 with hdb1
  have hrows1 : db1.rows = db.rows ++ [(db.nextId, newTaskRow c m)] := by
    rw [hdb1, hq1]
  have hdup : hasCoords db1 c m = true := by
    unfold hasCoords
    rw [hrows1, List.any_eq_true]
    exact ⟨(db.nextId, newTaskRow c m), by simp, hmatch⟩
  have hq2 : enqueue db1 c m = (db1, none) := by
    unfold enqueue
    rw [hdup]
    simp
  refine ⟨?_, ?_, ?_, ?_⟩
  · rw [hq2]
    unfold countCoords
    rw [hrows1]
    simp [List.filter_append, hfilter, hmatch]
  · rw [hq1]
  · rw [hq2]
  · rw [hq2]

/-- Witness for C3 on an empty queue. -/
theorem enqueue_at_most_once_witness :
    countCoords (enqueue (enqueue initDB 42 7).1 42 7).1 42 7 = 1 ∧
    (enqueue (enqueue initDB 42 7).1 42 7).2 = none := by
  have h := enqueue_at_most_once initDB 42 7 (by decide)
  exact ⟨h.1, h.2.2.1⟩

/-! ### Album reaction policy (`worker.rs`, `update_album_reaction`) -/

structure AlbumTask where
  botMessageId : Int
  status : Status
deriving DecidableEq

/-- `MIN(bot_message_id)` of the sibling rows. -/
def minList : List Int → Option Int
  | [] => none
  | x :: xs =>
    match minList xs with
    | none => some x
    | some y => some (min x y)

/-- The aggregate row
`SELECT MIN(bot_message_id), COUNT(*), BOOL_OR(status = 'failed'),
BOOL_AND(status = 'completed') FROM tasks WHERE bot_chat_id = $1 AND
payload->>'tg_group_id' = $2` followed by the reaction decision of
`update_album_reaction`: the result is the leader message id together with the
emoji set on it, or `none` when no reaction is emitted. -/
def update_album_reaction (siblings : List AlbumTask) : Option (Int × String) :=
  let leaderId := minList (siblings.map (fun t => t.botMessageId))
  let cnt := siblings.length
  let anyFailed := siblings.any (fun t => t.status == .failed)
  let allCompleted := siblings.all (fun t => t.status == .completed)
  match leaderId with
  | none => none
  | some leader =>
    if cnt = 0 then none
    else if anyFailed then some (leader, "👎")
    else if allCompleted then some (leader, "❤️")
    else none

theorem minList_spec (l : List Int) (a : Int) (h : minList l = some a) :
    a ∈ l ∧ ∀ b ∈ l, a ≤ b := by
  induction l generalizing a with
  | nil => cases h
  | cons x xs ih =>
    unfold minList at h
    cases hxs : minList xs with
    | none =>
      rw [hxs] at h
      injection h with h
      subst h
      cases xs with
      | nil => exact ⟨List.mem_singleton.mpr rfl, by simp⟩
      | cons y ys => unfold minList at hxs; cases hmm : minList ys <;>
          rw [hmm] at hxs <;> cases hxs
    | some y =>
      rw [hxs] at h
      injection h with h
      obtain ⟨hmem, hle⟩ := ih y hxs
      constructor
      · rcases min_cases x y with ⟨heq, _⟩ | ⟨heq, _⟩
        · rw [← h, heq]; exact List.mem_cons_self x xs
        · rw [← h, heq]; exact List.mem_cons_of_mem x hmem
      · intro b hb
        rcases List.mem_cons.mp hb with hb | hb
        · rw [← h, hb]; exact min_le_left x y
        · rw [← h]
          exact le_trans (min_le_right x y) (hle b hb)

/-- C5: after a terminal member update, the reaction emitted on the album
leader (the member with minimum `bot_message_id`) is "👎" when some sibling
failed, else "❤️" when every sibling completed, and otherwise no reaction is
emitted. -/
theorem album_reaction_policy (siblings : List AlbumTask) (leader : Int)
    (hmin : minList (siblings.map (fun t => t.botMessageId)) = some leader) :
    leader ∈ siblings.map (fun t => t.botMessageId) ∧
    (∀ b ∈ siblings.map (fun t => t.botMessageId), leader ≤ b) ∧
    update_album_reaction siblings =
      (if siblings.any (fun t => t.status == .failed) then some (leader, "👎")
       else if siblings.all (fun t => t.status == .completed) then
         some (leader, "❤️")
       else none) := by
  obtain ⟨hmem, hle⟩ := minList_spec _ leader hmin
  refine ⟨hmem, hle, ?_⟩
  have hne : siblings ≠ [] := by
    intro hcon
    rw [hcon] at hmin
    cases hmin
  unfold update_album_reaction
  rw [hmin]
  have hcnt : siblings.length ≠ 0 := fun hcon => hne (List.length_eq_zero.mp hcon)
  simp only [hcnt, if_false]

/-- Witness for C5 at the specification's album scenario: members 10 and 11
completed, member 12 failed, so the leader message 10 gets "👎". -/
theorem album_reaction_policy_witness :
    update_album_reaction
      [⟨10, .completed⟩, ⟨11, .completed⟩, ⟨12, .failed⟩] = some (10, "👎") := by
  have h := album_reaction_policy
    [⟨10, .completed⟩, ⟨11, .completed⟩, ⟨12, .failed⟩] 10 (by decide)
  rw [h.2.2]
  decide

/-! ### Item deletion cascade (`api.rs`, `delete_item`) -/

structure ItemRow where
  s3Key : Option String
  thumbnailKey : Option String
  tgChatId : Option Int
  tgUserId : Option Int
deriving DecidableEq

structure AppDB where
  items : List (Int × ItemRow)
  tasks : List (Nat × Option Int)
  entities : List Int
deriving DecidableEq

inductive HttpStatus
  | badRequest
  | notFound
  | internalServerError
deriving DecidableEq

/-- `tg_chat_id = $1 OR tg_user_id = $1` (SQL `NULL` compares false). -/
def referencesEntity (it : ItemRow) (e : Int) : Bool :=
  it.tgChatId == some e || it.tgUserId == some e

/-- `SELECT COUNT(*) FROM items WHERE tg_chat_id = $1 OR tg_user_id = $1`. -/
def remainingCount (items : List (Int × ItemRow)) (e : Int) : Nat :=
  (items.filter (fun r => referencesEntity r.2 e)).length

/-- The transaction body of `delete_item`: delete the tasks referencing the
item, delete the item, then for each of the item's `tg_chat_id` / `tg_user_id`
delete the entity when no remaining item references it.  The second component
is the list of blob keys whose deletion is attempted (best effort) after the
commit. -/
def gcEntities (items2 : List (Int × ItemRow)) (toCheck entities : List Int) :
    List Int :=
  toCheck.foldl
    (fun es e => if remainingCount items2 e == 0 then
        es.filter (fun x => x != e)
      else es)
    entities

def deleteApply (db : AppDB) (id : Int) (item : ItemRow) : AppDB × List String :=
  ({ items := db.items.filter (fun r => r.1 != id),
     tasks := db.tasks.filter (fun t => t.2 != some id),
     entities := gcEntities (db.items.filter (fun r => r.1 != id))
       (item.tgChatId.toList ++ item.tgUserId.toList) db.entities },
   item.s3Key.toList ++ item.thumbnailKey.toList)

/-- `DELETE /api/v1/items/:id`: 404 when the item does not exist, otherwise
the transactional cascade above. -/
def delete_item (db : AppDB) (id : Int) : Except HttpStatus (AppDB × List String) :=
  match lookupBy db.items id with
  | none => .error .notFound
  | some item => .ok (deleteApply db id item)

theorem gcEntities_mem (items2 : List (Int × ItemRow)) (L acc : List Int)
    (e : Int) :
    e ∈ gcEntities items2 L acc ↔
      (e ∈ acc ∧ ∀ x ∈ L, remainingCount items2 x = 0 → x ≠ e) := by
  unfold gcEntities
  induction L generalizing acc with
  | nil => simp
  | cons a L ih =>
    simp only [List.foldl_cons]
    by_cases hpa : remainingCount items2 a = 0
    · rw [show (if remainingCount items2 a == 0 then
            acc.filter (fun y => y != a)
          else acc) =
          acc.filter (fun y => y != a) from by simp [hpa], ih]
      constructor
      · rintro ⟨hacc, hall⟩
        obtain ⟨hmem, hne⟩ := List.mem_filter.mp hacc
        have hne2 : e ≠ a := by simpa using hne
        refine ⟨hmem, ?_⟩
        intro x hx hpx
        rcases List.mem_cons.mp hx with hx | hx
        · subst hx
          exact fun hcon => hne2 hcon.symm
        · exact hall x hx hpx
      · rintro ⟨hacc, hall⟩
        refine ⟨List.mem_filter.mpr ⟨hacc, ?_⟩, ?_⟩
        · have hne : a ≠ e := hall a (List.mem_cons_self a L) hpa
          simpa using fun hcon => hne hcon.symm
        · intro x hx hpx
          exact hall x (List.mem_cons_of_mem a hx) hpx
    · rw [show (if remainingCount items2 a == 0 then
            acc.filter (fun y => y != a)
          else acc) =
          acc from by simp [hpa], ih]
      constructor
      · rintro ⟨hacc, hall⟩
        refine ⟨hacc, ?_⟩
        intro x hx hpx
        rcases List.mem_cons.mp hx with hx | hx
        · subst hx
          exact absurd hpx hpa
        · exact hall x hx hpx
      · rintro ⟨hacc, hall⟩
        exact ⟨hacc, fun x hx hpx => hall x (List.mem_cons_of_mem a hx) hpx⟩

/-- C6: deleting an existing item removes, in one transaction, every task
referencing it and the item row itself, touches no other item, and removes
exactly those referenced entities whose remaining item count is zero; the
blob deletions attempted afterwards are the item's stored keys. -/
theorem delete_item_cascade (db : AppDB) (id : Int) (item : ItemRow)
    (hfind : lookupBy db.items id = some item) :
    delete_item db id = .ok (deleteApply db id item) ∧
    (∀ t ∈ (deleteApply db id item).1.tasks, t.2 ≠ some id) ∧
    (∀ r ∈ (deleteApply db id item).1.items, r.1 ≠ id) ∧
    (∀ r ∈ db.items, r.1 ≠ id → r ∈ (deleteApply db id item).1.items) ∧
    (∀ e : Int, e ∈ (deleteApply db id item).1.entities ↔
      (e ∈ db.entities ∧
        ∀ x ∈ item.tgChatId.toList ++ item.tgUserId.toList,
          remainingCount (deleteApply db id item).1.items x = 0 → x ≠ e)) ∧
    (deleteApply db id item).2 = item.s3Key.toList ++ item.thumbnailKey.toList := by
  refine ⟨?_, ?_, ?_, ?_, ?_, rfl⟩
  · unfold delete_item
    rw [hfind]
  · intro t ht
    have := (List.mem_filter.mp ht).2
    simpa using this
  · intro r hr
    have := (List.mem_filter.mp hr).2
    simpa using this
  · intro r hr hne
    exact List.mem_filter.mpr ⟨hr, by simpa using hne⟩
  · intro e
    simp only [deleteApply]
    exact gcEntities_mem (db.items.filter (fun r => r.1 != id))
      (item.tgChatId.toList ++ item.tgUserId.toList) db.entities e

def exItem : ItemRow :=
  { s3Key := some "2024/01/02/abc.jpg", thumbnailKey := none,
    tgChatId := some (-1001234567890), tgUserId := none }

def exDB : AppDB :=
  { items := [(900, exItem)], tasks := [(1, some 900)],
    entities := [-1001234567890] }

/-- Witness for C6 at the specification's deletion scenario: item 900 is the
only item of entity -1001234567890; afterwards the task, the item and the
entity are gone and the blob key deletion is attempted. -/
theorem delete_item_cascade_witness :
    delete_item exDB 900 =
      .ok ({ items := [], tasks := [], entities := [] }, ["2024/01/02/abc.jpg"]) := by
  have h := (delete_item_cascade exDB 900 exItem (by decide)).1
  rw [h]
  rfl

/-! ### Reciprocal Rank Fusion (`db.rs`, `rrf_merge`)

The `HashMap` of aggregate scores is modelled as an association list in
first-insertion order (the map's iteration order is unspecified), `f64`
scores are modelled as exact rationals, and `sort_by` with the descending
comparator is modelled as an insertion sort by the same descending order;
tie order among equal scores is unspecified in both. -/

structure SearchHit where
  id : Int
  rank : Nat
deriving DecidableEq

def rrfScore (k : ℚ) (rank : Nat) : ℚ := 1 / (k + rank)

/-- `*scores.entry(hit.id).or_insert(0.0) += score`. -/
def addScore : List (Int × ℚ) → Int → ℚ → List (Int × ℚ)
  | [], id, s => [(id, s)]
  | (i, v) :: rest, id, s =>
    if i = id then (i, v + s) :: rest else (i, v) :: addScore rest id s

def stepHit (k : ℚ) (m : List (Int × ℚ)) (h : SearchHit) : List (Int × ℚ) :=
  addScore m h.id (rrfScore k h.rank)

def buildScores (k : ℚ) (channels : List (List SearchHit)) : List (Int × ℚ) :=
  channels.foldl (fun m hits => hits.foldl (stepHit k) m) []

/-- The descending comparison `b.1.partial_cmp(&a.1)` used by the sort. -/
def scoreDesc (a b : Int × ℚ) : Prop := b.2 ≤ a.2

instance : DecidableRel scoreDesc := fun a b =>
  inferInstanceAs (Decidable (b.2 ≤ a.2))

instance : IsTotal (Int × ℚ) scoreDesc := ⟨fun a b => le_total b.2 a.2⟩

instance : IsTrans (Int × ℚ) scoreDesc := ⟨fun _ _ _ h1 h2 => le_trans h2 h1⟩

def rrf_merge (channels : List (List SearchHit)) (k : ℚ) (top_n : Nat) :
    List Int :=
  ((List.insertionSort scoreDesc (buildScores k channels)).map Prod.fst).take top_n

/-- All hits of all channels. -/
def allHits (channels : List (List SearchHit)) : List SearchHit :=
  channels.flatten

/-- The aggregate score the specification assigns to an id: the sum of
`1 / (k + rank)` over all of the id's hits across the channels. -/
def scoreOf (k : ℚ) (channels : List (List SearchHit)) (id : Int) : ℚ :=
  (((allHits channels).filter (fun h => h.id == id)).map
    (fun h => rrfScore k h.rank)).sum

def optScore (m : List (Int × ℚ)) (id : Int) : ℚ :=
  (lookupBy m id).getD 0

theorem lookupBy_addScore_self (m : List (Int × ℚ)) (id : Int) (s : ℚ) :
    lookupBy (addScore m id s) id = some (optScore m id + s) := by
  induction m with
  | nil => simp [addScore, lookupBy, optScore]
  | cons r rest ih =>
    obtain ⟨i, v⟩ := r
    by_cases hi : i = id
    · simp [addScore, hi, lookupBy, optScore]
    · simp [addScore, hi, lookupBy, optScore] at ih ⊢
      exact ih

theorem lookupBy_addScore_other (m : List (Int × ℚ)) (id id' : Int) (s : ℚ)
    (h : id' ≠ id) : lookupBy (addScore m id s) id' = lookupBy m id' := by
  have hni : ¬ id = id' := fun hh => h hh.symm
  induction m with
  | nil => simp [addScore, lookupBy, hni]
  | cons r rest ih =>
    obtain ⟨i, v⟩ := r
    by_cases hi : i = id
    · simp [addScore, hi, lookupBy, hni]
    · by_cases hi' : i = id'
      · simp [addScore, hi, lookupBy, hi', h]
      · simp [addScore, hi, lookupBy, hi'] at ih ⊢
        exact ih

theorem mem_keys_addScore (m : List (Int × ℚ)) (id id' : Int) (s : ℚ) :
    id' ∈ (addScore m id s).map Prod.fst ↔
      id' ∈ m.map Prod.fst ∨ id' = id := by
  induction m with
  | nil => simp [addScore]
  | cons r rest ih =>
    obtain ⟨i, v⟩ := r
    by_cases hi : i = id
    · subst hi
      simp [addScore]
      tauto
    · simp [addScore, hi] at ih ⊢
      tauto

theorem nodup_keys_addScore (m : List (Int × ℚ)) (id : Int) (s : ℚ)
    (h : (m.map Prod.fst).Nodup) : ((addScore m id s).map Prod.fst).Nodup := by
  induction m with
  | nil => simp [addScore]
  | cons r rest ih =>
    obtain ⟨i, v⟩ := r
    rw [List.map_cons] at h
    have h1 : i ∉ rest.map Prod.fst := (List.nodup_cons.mp h).1
    have h2 : (rest.map Prod.fst).Nodup := (List.nodup_cons.mp h).2
    simp only [addScore]
    by_cases hi : i = id
    · rw [if_pos hi, List.map_cons]
      exact List.nodup_cons.mpr ⟨h1, h2⟩
    · rw [if_neg hi, List.map_cons]
      refine List.nodup_cons.mpr ⟨?_, ih h2⟩
      intro hcon
      rcases (mem_keys_addScore rest id i s).mp hcon with hc | hc
      · exact h1 hc
      · exact hi hc

theorem foldlHits_optScore (k : ℚ) (l : List SearchHit) (m : List (Int × ℚ))
    (id : Int) :
    optScore (l.foldl (stepHit k) m) id =
      optScore m id +
        ((l.filter (fun h => h.id == id)).map (fun h => rrfScore k h.rank)).sum := by
  induction l generalizing m with
  | nil => simp
  | cons h l ih =>
    rw [List.foldl_cons, ih]
    by_cases hid : h.id = id
    · have : optScore (stepHit k m h) id = optScore m id + rrfScore k h.rank := by
        unfold stepHit optScore
        rw [hid, lookupBy_addScore_self]
        rfl
      rw [this]
      simp [hid]
      ring
    · have : optScore (stepHit k m h) id = optScore m id := by
        unfold stepHit optScore
        rw [lookupBy_addScore_other]
        exact fun hh => hid hh.symm
      rw [this]
      simp [hid]

theorem foldlHits_keys_mem (k : ℚ) (l : List SearchHit) (m : List (Int × ℚ))
    (id : Int) :
    id ∈ ((l.foldl (stepHit k) m).map Prod.fst) ↔
      id ∈ m.map Prod.fst ∨ id ∈ l.map SearchHit.id := by
  induction l generalizing m with
  | nil => simp
  | cons h l ih =>
    rw [List.foldl_cons, ih]
    rw [show stepHit k m h = addScore m h.id (rrfScore k h.rank) from rfl]
    rw [mem_keys_addScore]
    simp
    tauto

theorem foldlHits_keys_nodup (k : ℚ) (l : List SearchHit) (m : List (Int × ℚ))
    (h : (m.map Prod.fst).Nodup) :
    ((l.foldl (stepHit k) m).map Prod.fst).Nodup := by
  induction l generalizing m with
  | nil => exact h
  | cons hit l ih =>
    rw [List.foldl_cons]
    exact ih _ (nodup_keys_addScore m hit.id (rrfScore k hit.rank) h)

theorem buildScores_optScore (k : ℚ) (channels : List (List SearchHit))
    (id : Int) : optScore (buildScores k channels) id = scoreOf k channels id := by
  suffices h : ∀ m, optScore
      (channels.foldl (fun m hits => hits.foldl (stepHit k) m) m) id =
      optScore m id + scoreOf k channels id by
    have := h []
    simpa [buildScores, optScore, lookupBy] using this
  induction channels with
  | nil => simp [scoreOf, allHits]
  | cons ch rest ih =>
    intro m
    rw [List.foldl_cons, ih, foldlHits_optScore]
    simp [scoreOf, allHits, List.filter_append]
    ring

theorem buildScores_keys_mem (k : ℚ) (channels : List (List SearchHit))
    (id : Int) :
    id ∈ (buildScores k channels).map Prod.fst ↔
      id ∈ (allHits channels).map SearchHit.id := by
  suffices h : ∀ m : List (Int × ℚ), id ∈
      ((channels.foldl (fun m hits => hits.foldl (stepHit k) m) m).map Prod.fst) ↔
      id ∈ m.map Prod.fst ∨ id ∈ (allHits channels).map SearchHit.id by
    have := h []
    simpa [buildScores] using this
  induction channels with
  | nil => simp [allHits]
  | cons ch rest ih =>
    intro m
    rw [List.foldl_cons, ih, foldlHits_keys_mem]
    rw [show allHits (ch :: rest) = ch ++ allHits rest from rfl]
    rw [List.map_append, List.mem_append]
    tauto

theorem buildScores_keys_nodup (k : ℚ) (channels : List (List SearchHit)) :
    ((buildScores k channels).map Prod.fst).Nodup := by
  suffices h : ∀ m : List (Int × ℚ), (m.map Prod.fst).Nodup →
      ((channels.foldl (fun m hits => hits.foldl (stepHit k) m) m).map
        Prod.fst).Nodup by
    exact h [] (by simp)
  induction channels with
  | nil => exact fun m hm => hm
  | cons ch rest ih =>
    intro m hm
    rw [List.foldl_cons]
    exact ih _ (foldlHits_keys_nodup k ch m hm)

theorem lookupBy_of_mem_nodup (m : List (Int × ℚ)) (p : Int × ℚ)
    (hnd : (m.map Prod.fst).Nodup) (hmem : p ∈ m) :
    lookupBy m p.1 = some p.2 := by
  induction m with
  | nil => cases hmem
  | cons r rest ih =>
    rw [List.map_cons] at hnd
    have h1 : r.1 ∉ rest.map Prod.fst := (List.nodup_cons.mp hnd).1
    have h2 : (rest.map Prod.fst).Nodup := (List.nodup_cons.mp hnd).2
    rcases List.mem_cons.mp hmem with hp | hp
    · subst hp
      simp [lookupBy]
    · have hne : ¬ r.1 = p.1 := by
        intro hcon
        apply h1
        rw [hcon]
        exact List.mem_map.mpr ⟨p, hp, rfl⟩
      simp only [lookupBy, if_neg hne]
      exact ih h2 hp

theorem sorted_pair_score (k : ℚ) (channels : List (List SearchHit))
    (p : Int × ℚ)
    (hp : p ∈ List.insertionSort scoreDesc (buildScores k channels)) :
    p.2 = scoreOf k channels p.1 := by
  have hmem : p ∈ buildScores k channels :=
    (List.perm_insertionSort scoreDesc (buildScores k channels)).mem_iff.mp hp
  have hlook := lookupBy_of_mem_nodup (buildScores k channels) p
    (buildScores_keys_nodup k channels) hmem
  have h2 := buildScores_optScore k channels p.1
  rw [optScore, hlook] at h2
  simpa using h2

theorem full_pairwise (k : ℚ) (channels : List (List SearchHit)) :
    ((List.insertionSort scoreDesc (buildScores k channels)).map Prod.fst).Pairwise
      (fun x y => scoreOf k channels y ≤ scoreOf k channels x) := by
  have hs : List.Sorted scoreDesc
      (List.insertionSort scoreDesc (buildScores k channels)) :=
    List.sorted_insertionSort scoreDesc (buildScores k channels)
  rw [List.pairwise_map]
  refine List.Pairwise.imp_of_mem ?_ hs
  intro p q hp hq hr
  rw [← sorted_pair_score k channels p hp, ← sorted_pair_score k channels q hq]
  exact hr

theorem full_nodup (k : ℚ) (channels : List (List SearchHit)) :
    ((List.insertionSort scoreDesc (buildScores k channels)).map Prod.fst).Nodup := by
  have hperm := (List.perm_insertionSort scoreDesc (buildScores k channels)).map
    Prod.fst
  exact hperm.nodup_iff.mpr (buildScores_keys_nodup k channels)

theorem full_mem (k : ℚ) (channels : List (List SearchHit)) (id : Int) :
    id ∈ (List.insertionSort scoreDesc (buildScores k channels)).map Prod.fst ↔
      id ∈ (allHits channels).map SearchHit.id := by
  rw [((List.perm_insertionSort scoreDesc (buildScores k channels)).map
    Prod.fst).mem_iff]
  exact buildScores_keys_mem k channels id

/-- In a list sorted by strictly decreasing key, any element with a larger
key than one visible in a prefix is itself in the prefix, at a smaller
index. -/
theorem take_prec (f : Int → ℚ) (l : List Int) :
    ∀ (n : Nat) (X Y : Int), l.Pairwise (fun a b => f b ≤ f a) → X ∈ l →
      Y ∈ l.take n → f Y < f X →
      X ∈ l.take n ∧ (l.take n).indexOf X < (l.take n).indexOf Y := by
  induction l with
  | nil =>
    intro n X Y _ hx
    cases hx
  | cons a tl ih =>
    intro n X Y hp hx hy hlt
    cases n with
    | zero => simp at hy
    | succ n =>
      rw [List.take_succ_cons] at hy ⊢
      have hpa : ∀ z ∈ tl, f z ≤ f a := (List.pairwise_cons.mp hp).1
      have hptl := (List.pairwise_cons.mp hp).2
      rcases List.mem_cons.mp hy with hya | hytl
      · exfalso
        subst hya
        rcases List.mem_cons.mp hx with hxa | hxtl
        · subst hxa
          exact lt_irrefl _ hlt
        · exact absurd hlt (not_lt.mpr (hpa X hxtl))
      · have hfYa : f Y < f a := by
          rcases List.mem_cons.mp hx with hxa | hxtl
          · rw [← hxa]
            exact hlt
          · exact lt_of_lt_of_le hlt (hpa X hxtl)
        have hYnea : a ≠ Y := by
          intro hcon
          rw [← hcon] at hfYa
          exact lt_irrefl _ hfYa
        rcases List.mem_cons.mp hx with hxa | hxtl
        · subst hxa
          refine ⟨List.mem_cons_self X (tl.take n), ?_⟩
          rw [List.indexOf_cons_self, List.indexOf_cons_ne _ hYnea]
          exact Nat.succ_pos _
        · obtain ⟨hmem, hidx⟩ := ih n X Y hptl hxtl hytl hlt
          refine ⟨List.mem_cons_of_mem a hmem, ?_⟩
          by_cases hXa : a = X
          · rw [← hXa, List.indexOf_cons_self, List.indexOf_cons_ne _ hYnea]
            exact Nat.succ_pos _
          · rw [List.indexOf_cons_ne _ hXa, List.indexOf_cons_ne _ hYnea]
            exact Nat.succ_lt_succ hidx

theorem single_channel_allHits (channels : List (List SearchHit))
    (ch : List SearchHit)
    (hf : channels.filter (fun c => !c.isEmpty) = [ch]) :
    allHits channels = ch := by
  induction channels with
  | nil => simp at hf
  | cons c rest ih =>
    by_cases hc : c.isEmpty
    · rw [List.filter_cons_of_neg (by simp [hc])] at hf
      have hcnil : c = [] := List.isEmpty_iff.mp hc
      rw [show allHits (c :: rest) = c ++ allHits rest from rfl, hcnil,
        List.nil_append]
      exact ih hf
    · rw [List.filter_cons_of_pos (by simp [hc])] at hf
      have hch : c = ch := (List.cons.injEq _ _ _ _ ▸ hf).1
      have hrest : rest.filter (fun c => !c.isEmpty) = [] :=
        (List.cons.injEq _ _ _ _ ▸ hf).2
      have hallnil : allHits rest = [] := by
        rw [show allHits rest = rest.flatten from rfl,
          List.flatten_eq_nil_iff]
        intro l hl
        have := List.filter_eq_nil_iff.mp hrest l hl
        simpa [List.isEmpty_iff] using this
      rw [show allHits (c :: rest) = c ++ allHits rest from rfl, hch, hallnil,
        List.append_nil]

theorem filter_single_hit (ch : List SearchHit) (h : SearchHit)
    (hnd : (ch.map SearchHit.id).Nodup) (hx : h ∈ ch) :
    ch.filter (fun g => g.id == h.id) = [h] := by
  induction ch with
  | nil => cases hx
  | cons a rest ih =>
    rw [List.map_cons] at hnd
    have h1 : a.id ∉ rest.map SearchHit.id := (List.nodup_cons.mp hnd).1
    have h2 := (List.nodup_cons.mp hnd).2
    rcases List.mem_cons.mp hx with hha | hhr
    · subst hha
      have hpos : (fun g => g.id == h.id) h = true := by simp
      rw [show List.filter (fun g => g.id == h.id) (h :: rest) =
          h :: List.filter (fun g => g.id == h.id) rest from
          List.filter_cons_of_pos hpos]
      rw [show ([h] : List SearchHit) = h :: [] from rfl]
      congr 1
      rw [List.filter_eq_nil_iff]
      intro g hg
      simp only [beq_iff_eq]
      intro hcon
      exact h1 (hcon ▸ List.mem_map.mpr ⟨g, hg, rfl⟩)
    · have hne : ¬ ((fun g => g.id == h.id) a = true) := by
        simp only [beq_iff_eq]
        intro hcon
        apply h1
        rw [hcon]
        exact List.mem_map.mpr ⟨h, hhr, rfl⟩
      rw [show List.filter (fun g => g.id == h.id) (a :: rest) =
          List.filter (fun g => g.id == h.id) rest from
          List.filter_cons_of_neg hne]
      exact ih h2 hhr

/-- C4: with `k = 60` the fusion assigns each id the sum of `1/(60 + rank)`
over its hits, and returns ids sorted by descending aggregate score, without
duplicates, drawn from the channel hits, truncated to the requested top
count; consequently, when exactly one channel is non-empty, an id with a
smaller rank there precedes an id with a larger rank in the fused output. -/
theorem rrf_merge_spec (channels : List (List SearchHit)) (limit : Nat) :
    (∀ p ∈ buildScores 60 channels, p.2 = scoreOf 60 channels p.1) ∧
    (rrf_merge channels 60 limit).Pairwise
      (fun x y => scoreOf 60 channels y ≤ scoreOf 60 channels x) ∧
    (rrf_merge channels 60 limit).Nodup ∧
    (∀ id, id ∈ rrf_merge channels 60 limit →
      id ∈ (allHits channels).map SearchHit.id) ∧
    (rrf_merge channels 60 limit).length =
      min limit ((allHits channels).map SearchHit.id).dedup.length ∧
    (∀ ch X Y rX rY, channels.filter (fun c => !c.isEmpty) = [ch] →
      (ch.map SearchHit.id).Nodup →
      (⟨X, rX⟩ : SearchHit) ∈ ch → (⟨Y, rY⟩ : SearchHit) ∈ ch → rX < rY →
      Y ∈ rrf_merge channels 60 limit →
      X ∈ rrf_merge channels 60 limit ∧
        (rrf_merge channels 60 limit).indexOf X <
          (rrf_merge channels 60 limit).indexOf Y) := by
  refine ⟨?_, ?_, ?_, ?_, ?_, ?_⟩
  · intro p hp
    have hlook := lookupBy_of_mem_nodup (buildScores 60 channels) p
      (buildScores_keys_nodup 60 channels) hp
    have h2 := buildScores_optScore 60 channels p.1
    rw [optScore, hlook] at h2
    simpa using h2
  · exact List.Pairwise.sublist (List.take_sublist _ _) (full_pairwise 60 channels)
  · exact List.Nodup.sublist (List.take_sublist _ _) (full_nodup 60 channels)
  · intro id hid
    exact (full_mem 60 channels id).mp (List.mem_of_mem_take hid)
  · have hperm : List.Perm
        ((List.insertionSort scoreDesc (buildScores 60 channels)).map Prod.fst)
        (((allHits channels).map SearchHit.id).dedup) :=
      (List.perm_ext_iff_of_nodup (full_nodup 60 channels)
        (List.nodup_dedup _)).mpr
        (fun a => by rw [full_mem, List.mem_dedup])
    show (((List.insertionSort scoreDesc (buildScores 60 channels)).map
      Prod.fst).take limit).length = _
    rw [List.length_take, hperm.length_eq]
  · intro ch X Y rX rY hf hnd hxmem hymem hrlt hyout
    have hall : allHits channels = ch := single_channel_allHits channels ch hf
    have hsX : scoreOf 60 channels X = rrfScore 60 rX := by
      unfold scoreOf
      rw [hall]
      rw [filter_single_hit ch ⟨X, rX⟩ hnd hxmem]
      simp
    have hsY : scoreOf 60 channels Y = rrfScore 60 rY := by
      unfold scoreOf
      rw [hall]
      rw [filter_single_hit ch ⟨Y, rY⟩ hnd hymem]
      simp
    have hlt : scoreOf 60 channels Y < scoreOf 60 channels X := by
      rw [hsX, hsY]
      unfold rrfScore
      apply one_div_lt_one_div_of_lt
      · positivity
      · have hc : (rX : ℚ) < rY := by exact_mod_cast hrlt
        linarith
    have hXfull : X ∈ (List.insertionSort scoreDesc
        (buildScores 60 channels)).map Prod.fst :=
      (full_mem 60 channels X).mpr
        (by rw [hall]; exact List.mem_map.mpr ⟨⟨X, rX⟩, hxmem, rfl⟩)
    exact take_prec (scoreOf 60 channels)
      ((List.insertionSort scoreDesc (buildScores 60 channels)).map Prod.fst)
      limit X Y (full_pairwise 60 channels) hXfull hyout hlt

/-- Witness for C4 on the specification's hybrid-search example shape: in a
single channel ranking 101 before 102, the fused output keeps 101 before
102. -/
theorem rrf_merge_spec_witness :
    (101 : Int) ∈ rrf_merge [[⟨101, 1⟩, ⟨102, 2⟩], []] 60 50 ∧
    (rrf_merge [[⟨101, 1⟩, ⟨102, 2⟩], []] 60 50).indexOf 101 <
      (rrf_merge [[⟨101, 1⟩, ⟨102, 2⟩], []] 60 50).indexOf 102 := by
  have h := (rrf_merge_spec [[⟨101, 1⟩, ⟨102, 2⟩], []] 50).2.2.2.2.2
  exact h [⟨101, 1⟩, ⟨102, 2⟩] 101 102 1 2 (by decide) (by decide) (by decide)
    (by decide) (by decide) (by with_unfolding_all decide)

/-! ### Search endpoint (`api.rs`, `search_items`)

The remote embedding calls, the three `search_*` queries and the result
hydration are oracle inputs: a channel is `none` when its embedding call or
its query failed (nothing is pushed onto `channels`), `some hits` when it
contributed a (possibly empty) hit list. -/

/-- Rust `as usize` on an `i64`, two's-complement bit cast. -/
def usizeOfI64 (x : Int) : Nat := (x % (2 ^ 64 : Int)).toNat

/-- `params.limit.unwrap_or(50).min(100)`. -/
def searchLimit (l : Option Int) : Int := min (l.getD 50) 100

structure HydratedRow where
  id : Int
  itemType : String
deriving DecidableEq

structure SearchParams where
  q : Option String
  imageUrl : Option String
  itemType : Option String
  limit : Option Int

structure SearchOracle where
  textChan : Option (List SearchHit)
  clipTextChan : Option (List SearchHit)
  ftsChan : Option (List SearchHit)
  imageChan : Option (List SearchHit)
  hydrate : List Int → Except Unit (List HydratedRow)

/-- The `channels` vector: the three text-driven channels are attempted only
when `q` is present, the image channel only when `image_url` is present. -/
def buildChannels (p : SearchParams) (o : SearchOracle) :
    List (List SearchHit) :=
  (match p.q with
   | some _ => o.textChan.toList ++ o.clipTextChan.toList ++ o.ftsChan.toList
   | none => []) ++
  (match p.imageUrl with
   | some _ => o.imageChan.toList
   | none => [])

/-- `GET /api/v1/search`: 400 when both `q` and `image_url` are absent; an
empty success when no channel contributed; otherwise RRF fusion, hydration
(500 on a store error) and the post-hydration type filter. -/
def search_items (p : SearchParams) (o : SearchOracle) :
    Except HttpStatus (List HydratedRow) :=
  if p.q = none ∧ p.imageUrl = none then .error .badRequest
  else if (buildChannels p o).isEmpty then .ok []
  else
    match o.hydrate (rrf_merge (buildChannels p o) 60
        (usizeOfI64 (searchLimit p.limit))) with
    | .error _ => .error .internalServerError
    | .ok rows => .ok (rows.filter (fun r =>
        match p.itemType with
        | some t => r.itemType == t
        | none => true))

/-- C7: the endpoint returns BadRequest exactly when both `q` and `image_url`
are absent; otherwise, when every recall channel is omitted or failed, it
returns an empty success, not an error. -/
theorem search_items_error_handling (p : SearchParams) (o : SearchOracle) :
    (search_items p o = .error .badRequest ↔ (p.q = none ∧ p.imageUrl = none)) ∧
    ((p.q ≠ none ∨ p.imageUrl ≠ none) → buildChannels p o = [] →
      search_items p o = .ok []) := by
  constructor
  · constructor
    · intro h
      by_contra hcon
      unfold search_items at h
      rw [if_neg hcon] at h
      by_cases hch : (buildChannels p o).isEmpty
      · rw [if_pos hch] at h
        cases h
      · rw [if_neg hch] at h
        cases hh : o.hydrate (rrf_merge (buildChannels p o) 60
            (usizeOfI64 (searchLimit p.limit))) with
        | error e =>
          rw [hh] at h
          injection h with h
          cases h
        | ok rows =>
          rw [hh] at h
          cases h
    · intro h
      unfold search_items
      rw [if_pos h]
  · intro h1 h2
    have hcon : ¬ (p.q = none ∧ p.imageUrl = none) := by
      intro hc
      rcases h1 with h1 | h1
      · exact h1 hc.1
      · exact h1 hc.2
    unfold search_items
    rw [if_neg hcon, if_pos (by rw [h2]; rfl)]

def exOracle : SearchOracle :=
  { textChan := none, clipTextChan := none, ftsChan := none, imageChan := none,
    hydrate := fun _ => .ok [] }

/-- Witness for C7: an image-only request whose only channel failed yields an
empty success, and a request with neither input yields BadRequest. -/
theorem search_items_error_handling_witness :
    search_items ⟨none, some "http://img", none, none⟩ exOracle = .ok [] ∧
    search_items ⟨none, none, none, none⟩ exOracle = .error .badRequest := by
  constructor
  · exact (search_items_error_handling ⟨none, some "http://img", none, none⟩
      exOracle).2 (by simp) rfl
  · exact (search_items_error_handling ⟨none, none, none, none⟩
      exOracle).1.mpr ⟨rfl, rfl⟩

/-- C10: for a negative `limit`, the bound handed to `rrf_merge` is the i64
cast to usize, which wraps to at least `2^63`; with at most 4 channels of at
most 100 hits each the fused list is therefore not truncated at all — it
contains every fused candidate id. -/
theorem negative_limit_untruncated (l : Int) (h1 : -(2 ^ 63) ≤ l) (h2 : l < 0)
    (channels : List (List SearchHit)) (hc : channels.length ≤ 4)
    (hlen : ∀ c ∈ channels, c.length ≤ 100) :
    2 ^ 63 ≤ usizeOfI64 (searchLimit (some l)) ∧
    ∀ id, (id ∈ rrf_merge channels 60 (usizeOfI64 (searchLimit (some l))) ↔
      id ∈ (allHits channels).map SearchHit.id) := by
  have htop : 2 ^ 63 ≤ usizeOfI64 (searchLimit (some l)) := by
    unfold usizeOfI64 searchLimit
    simp only [Option.getD]
    norm_num
    omega
  refine ⟨htop, ?_⟩
  have hsum : ∀ L : List (List SearchHit), (∀ c ∈ L, c.length ≤ 100) →
      (L.map List.length).sum ≤ 100 * L.length := by
    intro L
    induction L with
    | nil => simp
    | cons c rest ih =>
      intro h
      rw [List.map_cons, List.sum_cons, List.length_cons]
      have hhd := h c (List.mem_cons_self c rest)
      have htl := ih (fun x hx => h x (List.mem_cons_of_mem c hx))
      omega
  have hcand : ((allHits channels).map SearchHit.id).length ≤ 400 := by
    rw [List.length_map]
    unfold allHits
    rw [List.length_flatten]
    have := hsum channels hlen
    omega
  have hfull_len : ((List.insertionSort scoreDesc
      (buildScores 60 channels)).map Prod.fst).length ≤ 400 := by
    have hperm : List.Perm
        ((List.insertionSort scoreDesc (buildScores 60 channels)).map Prod.fst)
        (((allHits channels).map SearchHit.id).dedup) :=
      (List.perm_ext_iff_of_nodup (full_nodup 60 channels)
        (List.nodup_dedup _)).mpr
        (fun a => by rw [full_mem, List.mem_dedup])
    rw [hperm.length_eq]
    exact le_trans (List.Sublist.length_le (List.dedup_sublist _)) hcand
  have htake : ((List.insertionSort scoreDesc
      (buildScores 60 channels)).map Prod.fst).take
        (usizeOfI64 (searchLimit (some l))) =
      (List.insertionSort scoreDesc (buildScores 60 channels)).map Prod.fst := by
    apply List.take_of_length_le
    calc ((List.insertionSort scoreDesc (buildScores 60 channels)).map
        Prod.fst).length ≤ 400 := hfull_len
      _ ≤ 2 ^ 63 := by norm_num
      _ ≤ usizeOfI64 (searchLimit (some l)) := htop
  intro id
  unfold rrf_merge
  rw [htake]
  exact full_mem 60 channels id

/-- Witness for C10 at `limit = -1` with one single-hit channel: the wrapped
bound is at least `2^63` and the sole candidate id is in the output. -/
theorem negative_limit_untruncated_witness :
    2 ^ 63 ≤ usizeOfI64 (searchLimit (some (-1))) ∧
    (5 : Int) ∈ rrf_merge [[⟨5, 1⟩]] 60 (usizeOfI64 (searchLimit (some (-1)))) := by
  have h := negative_limit_untruncated (-1) (by norm_num) (by norm_num)
    [[⟨5, 1⟩]] (by norm_num) (by decide)
  exact ⟨h.1, (h.2 5).mpr (by decide)⟩

/-! ### Failure feedback (`worker.rs`, `process_next_task`, failure branch) -/

/-- `format!("❌ 处理失败：{}", e)` — the reply text for a failed task. -/
def failureReplyText (e : String) : String := "❌ 处理失败：" ++ e

structure FailFeedback where
  edited : Option (Int × String)
  sent : Option String
  storedErrorMessage : String
  storedErrorReplyId : Option Int
deriving DecidableEq

/-- The failure branch: when `error_reply_id` is already set, edit that
message; otherwise send a new reply (`sendResult` is the id returned by the
transport, `none` on a send error, which the code maps to 0); then persist
`status = failed`, the stringified error, and the reply id when positive. -/
def on_task_failure (prevErrorReply : Option Int) (e : String)
    (sendResult : Option Int) : FailFeedback :=
  match prevErrorReply with
  | some replyId =>
    { edited := some (replyId, failureReplyText e), sent := none,
      storedErrorMessage := e,
      storedErrorReplyId := if replyId > 0 then some replyId else none }
  | none =>
    { edited := none, sent := some (failureReplyText e),
      storedErrorMessage := e,
      storedErrorReplyId :=
        if sendResult.getD 0 > 0 then some (sendResult.getD 0) else none }

/-- C8 counterexample: the reply for error "boom" is
"❌ 处理失败：boom" (fullwidth colon, no following space), which does not
begin with the claimed prefix "❌ 处理失败: " (ASCII colon and space). -/
theorem failure_reply_prefix_counterexample :
    (on_task_failure none "boom" (some 99)).sent =
      some (failureReplyText "boom") ∧
    (("❌ 处理失败: ").data.isPrefixOf (failureReplyText "boom").data) = false := by
  constructor
  · rfl
  · decide

/-- C8 (amended): every failure reply — sent or edited — has text beginning
with the exact prefix "❌ 处理失败：" (fullwidth colon) followed by the
stringified error, the edit targets the stored `error_reply_id`, and when a
new reply is sent its positive message id is persisted into
`error_reply_id`. -/
theorem failure_reply_spec (prev : Option Int) (e : String)
    (sendId : Option Int) :
    (∀ t, (on_task_failure prev e sendId).sent = some t →
      t = "❌ 处理失败：" ++ e ∧
      ("❌ 处理失败：").data.isPrefixOf t.data = true) ∧
    (∀ rid t, (on_task_failure prev e sendId).edited = some (rid, t) →
      prev = some rid ∧ t = "❌ 处理失败：" ++ e ∧
      ("❌ 处理失败：").data.isPrefixOf t.data = true) ∧
    (prev = none → ∀ i, sendId = some i → 0 < i →
      (on_task_failure prev e sendId).storedErrorReplyId = some i) ∧
    (on_task_failure prev e sendId).storedErrorMessage = e := by
  have hpre : ∀ t, t = "❌ 处理失败：" ++ e →
      ("❌ 处理失败：").data.isPrefixOf t.data = true := by
    intro t ht
    rw [ht, List.isPrefixOf_iff_prefix, String.data_append]
    exact List.prefix_append _ _
  cases prev with
  | some rid =>
    refine ⟨?_, ?_, ?_, rfl⟩
    · intro t ht
      cases ht
    · intro r t ht
      injection ht with ht
      have h1 : r = rid := (Prod.mk.injEq _ _ _ _ ▸ ht).1.symm
      have h2 : t = failureReplyText e := (Prod.mk.injEq _ _ _ _ ▸ ht).2.symm
      exact ⟨by rw [h1], h2, hpre t h2⟩
    · intro hcon
      cases hcon
  | none =>
    refine ⟨?_, ?_, ?_, rfl⟩
    · intro t ht
      injection ht with ht
      exact ⟨ht.symm, hpre t ht.symm⟩
    · intro r t ht
      cases ht
    · intro _ i hi hpos
      show (if (sendId.getD 0) > 0 then some (sendId.getD 0) else none) = some i
      rw [hi]
      simp [hpos]

/-- Witness for C8 at error "boom" with a freshly sent reply id 99. -/
theorem failure_reply_spec_witness :
    (on_task_failure none "boom" (some 99)).storedErrorReplyId = some 99 ∧
    (on_task_failure none "boom" (some 99)).sent = some "❌ 处理失败：boom" := by
  have h := failure_reply_spec none "boom" (some 99)
  refine ⟨h.2.2.1 rfl 99 rfl (by norm_num), ?_⟩
  have := h.1 "❌ 处理失败：boom"
  rfl

/-! ### Source link synthesis (`api.rs`, `get_item` and `list_items`) -/

/-- The `(tg_chat_id, tg_message_id)` match shared by `get_item`'s `tg_link`
and the fallback arm of `list_items`'s `source_url`, with the guards in the
source's order. -/
def tgLink (chatId : Option Int) (msgId : Option Int) : Option String :=
  match chatId, msgId with
  | some c, some m =>
    if c ≤ -1000000000000 then
      some ("https://t.me/c/" ++ toString (-c - 1000000000000) ++ "/" ++ toString m)
    else if c > 0 then
      some ("tg://user?id=" ++ toString c)
    else none
  | some c, none =>
    if c > 0 then
      some ("tg://user?id=" ++ toString c)
    else if c ≤ -1000000000000 then
      some ("https://t.me/c/" ++ toString (-c - 1000000000000))
    else none
  | none, _ => none

/-- `list_items`'s `source_url`: a present `tg_user_id` takes precedence
(positive user ids link to the user, otherwise no link); only when it is
absent does the chat-based match above apply. -/
def source_url (userId chatId msgId : Option Int) : Option String :=
  match userId with
  | some u => if u > 0 then some ("tg://user?id=" ++ toString u) else none
  | none => tgLink chatId msgId

/-- C9 counterexample: for `tg_chat_id = -1001234567890` and message 5 the
code produces `/c/1234567890/…` — the value `-chat_id - 10^12`, not the
claimed `chat_id + 10^12` (which is negative) — and in the list endpoint a
present positive `tg_user_id` overrides the chat-based link entirely. -/
theorem tg_link_counterexample :
    tgLink (some (-1001234567890)) (some 5) =
      some "https://t.me/c/1234567890/5" ∧
    ("https://t.me/c/" ++ toString ((-1001234567890 : Int) + 1000000000000) ++
        "/" ++ toString (5 : Int)) = "https://t.me/c/-1234567890/5" ∧
    source_url (some 7) (some (-1001234567890)) (some 5) =
      some "tg://user?id=7" := by
  refine ⟨?_, ?_, ?_⟩ <;> decide

/-- C9 (amended): for `tg_chat_id ≤ -10^12` the link is `https://t.me/c/`
followed by the decimal value of `-tg_chat_id - 10^12`, then `/` and the
message id when present; for positive `tg_chat_id` it is
`tg://user?id=<chat_id>`; otherwise there is no link.  In the list endpoint a
present `tg_user_id` takes precedence: `tg://user?id=<user_id>` when
positive, else no link; the chat-based rule applies only when `tg_user_id`
is absent. -/
theorem tg_link_synthesis (c m : Int) :
    (c ≤ -1000000000000 →
      tgLink (some c) (some m) =
        some ("https://t.me/c/" ++ toString (-c - 1000000000000) ++ "/" ++
          toString m) ∧
      tgLink (some c) none =
        some ("https://t.me/c/" ++ toString (-c - 1000000000000))) ∧
    (0 < c →
      tgLink (some c) (some m) = some ("tg://user?id=" ++ toString c) ∧
      tgLink (some c) none = some ("tg://user?id=" ++ toString c)) ∧
    (-1000000000000 < c → c ≤ 0 →
      tgLink (some c) (some m) = none ∧ tgLink (some c) none = none) ∧
    (∀ mi, tgLink none mi = none) ∧
    (∀ u ci mi, source_url (some u) ci mi =
      if 0 < u then some ("tg://user?id=" ++ toString u) else none) ∧
    (∀ ci mi, source_url none ci mi = tgLink ci mi) := by
  refine ⟨?_, ?_, ?_, ?_, ?_, ?_⟩
  · intro h
    constructor
    · show (if c ≤ -1000000000000 then _ else _) = _
      rw [if_pos h]
    · show (if c > 0 then _ else _) = _
      rw [if_neg (by omega), if_pos h]
  · intro h
    constructor
    · show (if c ≤ -1000000000000 then _ else _) = _
      rw [if_neg (by omega), if_pos h]
    · show (if c > 0 then _ else _) = _
      rw [if_pos h]
  · intro h1 h2
    constructor
    · show (if c ≤ -1000000000000 then _ else _) = _
      rw [if_neg (by omega), if_neg (by omega)]
    · show (if c > 0 then _ else _) = _
      rw [if_neg (by omega), if_neg (by omega)]
  · intro mi
    cases mi <;> rfl
  · intro u ci mi
    rfl
  · intro ci mi
    rfl

/-- Witness for C9 at the supergroup chat `-1001234567890`, message 5, and at
user id 7. -/
theorem tg_link_synthesis_witness :
    tgLink (some (-1001234567890)) (some 5) =
      some "https://t.me/c/1234567890/5" ∧
    source_url (some 7) (some (-1001234567890)) (some 5) =
      some "tg://user?id=7" := by
  have h := tg_link_synthesis (-1001234567890) 5
  constructor
  · rw [(h.1 (by norm_num)).1]
    rfl
  · rw [h.2.2.2.2.1 7 (some (-1001234567890)) (some 5)]
    rfl

end Brainpile
